import Mathlib

/-!
Verification development for the hoax-detection ingestion pipeline.

Shallow embedding of the Python sources:
  - scrapers.py          (retry_request, RedditScraper.__init__)
  - social_media_agent.py (Scheduler.__init__ scraper section, extract_claim_keywords,
                           run_job, NewsClassifier.classify)
  - classifier.py        (blank-input contract shared with the in-agent classifier)
  - fact_checker.py      (FactChecker.search_claim fuzzy matcher)
  - database.py          (Database.insert_posts upsert and transaction discipline)

External effects (HTTP, the HuggingFace pipeline, the fuzz scorer, the clock,
environment variables, SQLAlchemy sessions) are passed in as explicit oracle
parameters; machine floats (prediction scores) are modelled as rationals.
-/

/-! ## Python string primitives -/

/-- Python whitespace test for the characters stripped by str.strip(). -/
def isPySpace (c : Char) : Bool :=
  c = ' ' || c = '\t' || c = '\n' || c = '\r' || c.toNat = 11 || c.toNat = 12

/-- List-level model of Python str.strip(): drop whitespace from both ends. -/
def pyStripL (l : List Char) : List Char :=
  ((l.dropWhile isPySpace).reverse.dropWhile isPySpace).reverse

/-- Python str.strip() on strings. -/
def pyStrip (s : String) : String := ⟨pyStripL s.data⟩

/-- Python truthiness of an optional string: None and the empty string are falsy. -/
def pyTruthy : Option String → Bool
  | none => false
  | some s => s != ""

/-- Python `a or b` on optional strings. -/
def pyOr (a b : Option String) : Option String := if pyTruthy a then a else b

/-! ## Canonical record shapes (structures.py Post, database.py PostModel) -/

/-- The Post dataclass of structures.py / social_media_agent.py.
datetimes are abstracted to Nat instants; float scores to rationals. -/
structure Post where
  platform : String
  keyword : String
  content : String
  url : String
  created_at : Nat
  author : Option String
  predicted_label : Option String
  prediction_score : Option ℚ
  fact_check_url : Option String
  fact_check_rating : Option String
  fact_check_publisher : Option String
deriving DecidableEq

/-- A persisted row of the posts table (database.py PostModel), including the
inserted_at timestamp set at insertion time. -/
structure Row where
  platform : String
  keyword : String
  content : String
  url : String
  created_at : Nat
  author : Option String
  predicted_label : Option String
  prediction_score : Option ℚ
  fact_check_url : Option String
  fact_check_rating : Option String
  fact_check_publisher : Option String
  inserted_at : Nat
deriving DecidableEq

/-! ## Retry policy (scrapers.py retry_request) -/

/-- The while-loop of scrapers.py retry_request: fuel is the remaining attempt
budget (max_retries - retries), the second component counts invocations of the
wrapped operation.  The operation is an oracle indexed by attempt number; a
raised exception is Except.error.  The inter-attempt sleep has no observable
effect in this model. -/
def retryGo (f : Nat → Except Unit (List α)) : Nat → Nat → List α × Nat
  | 0, calls => ([], calls)
  | n + 1, calls =>
    match f calls with
    | Except.ok v => (v, calls + 1)
    | Except.error _ => retryGo f n (calls + 1)

/-- scrapers.py retry_request: run the operation up to max_retries times; if
every attempt raises, return the empty list (never re-raise). -/
def retry_request (f : Nat → Except Unit (List α)) (max_retries : Nat) : List α × Nat :=
  retryGo f max_retries 0

/-- A concrete operation that raises on every attempt. -/
def alwaysFail : Nat → Except Unit (List Nat) := fun _ => Except.error ()

/-! ## RedditScraper construction (scrapers.py RedditScraper.__init__) -/

/-- The three resolved Reddit credential values. -/
structure RedditCreds where
  client_id : String
  client_secret : String
  user_agent : String
deriving DecidableEq

/-- scrapers.py RedditScraper.__init__ credential resolution and check:
each value is the constructor parameter `or` the environment variable, the
user-agent lookup carrying the default "social_media_agent"; construction
raises ValueError unless all three resolved values are truthy. -/
def RedditScraper.init (env : String → Option String)
    (client_id client_secret user_agent : Option String) : Except String RedditCreds :=
  let cid := pyOr client_id (env "REDDIT_CLIENT_ID")
  let csec := pyOr client_secret (env "REDDIT_CLIENT_SECRET")
  let ua := pyOr user_agent (some ((env "REDDIT_USER_AGENT").getD "social_media_agent"))
  if pyTruthy cid && pyTruthy csec && pyTruthy ua then
    Except.ok ⟨cid.getD "", csec.getD "", ua.getD ""⟩
  else
    Except.error "Reddit credentials must be provided via parameters or environment variables."

/-- Bool view of a construction outcome. -/
def initOk : Except String RedditCreds → Bool
  | Except.ok _ => true
  | Except.error _ => false

/-- social_media_agent.py Scheduler.__init__, scraper section: each adapter is
constructed only when its source name is enabled, and a constructor exception
is caught (logged) leaving that adapter None.  Constructors are oracles. -/
def initScrapers (sources : List String)
    (twitterCtor : Except String α) (redditCtor : Except String β) (googleCtor : Except String γ) :
    Option α × Option β × Option γ :=
  ( if "twitter" ∈ sources then twitterCtor.toOption else none,
    if "reddit" ∈ sources then redditCtor.toOption else none,
    if "google" ∈ sources then googleCtor.toOption else none )

/-! ## Claim extractor (social_media_agent.py Scheduler.extract_claim_keywords) -/

/-- Python regex word character (ASCII fragment of \w). -/
def wordChar (c : Char) : Bool := c.isAlphanum || c = '_'

/-- The character (if any) that follows a match must not be a word character. -/
def nbHead (l : List Char) : Bool :=
  match l.head? with
  | none => true
  | some c => !wordChar c

/-- The character (if any) that precedes a match must not be a word character. -/
def nbLast (l : List Char) : Bool :=
  match l.getLast? with
  | none => true
  | some c => !wordChar c

/-- Case-insensitive "the first list is a prefix of the second" check. -/
def ciStartsWith : List Char → List Char → Bool
  | [], _ => true
  | _ :: _, [] => false
  | k :: ks, t :: ts => (k.toLower == t.toLower) && ciStartsWith ks ts

/-- One candidate start position of re.search(rf"\b kw \b", text, re.IGNORECASE):
the keyword matches case-insensitively at i with word boundaries on both sides. -/
def wholeWordAt (kw text : List Char) (i : Nat) : Bool :=
  nbLast (text.take i) && ciStartsWith kw (text.drop i) && nbHead (text.drop (i + kw.length))

/-- re.search of the whole-word case-insensitive pattern: some start position matches. -/
def reSearchWord (kw text : List Char) : Bool :=
  (List.range (text.length + 1)).any (wholeWordAt kw text)

/-- Declarative reading of a whole-word case-insensitive occurrence: the text
splits as a ++ w ++ b where w is a case-variant of the keyword and both
neighbouring characters (when present) are non-word characters. -/
def OccursWholeWord (kw text : List Char) : Prop :=
  ∃ a w b, text = a ++ (w ++ b) ∧ w.map Char.toLower = kw.map Char.toLower ∧
    nbLast a = true ∧ nbHead b = true

/-- The fixed domain vocabulary of Scheduler.extract_claim_keywords. -/
def claimVocab : List String :=
  ["vaksin", "covid", "chip", "autisme",
   "pemilu", "kecurangan", "konspirasi", "hoaks",
   "buzzer", "Israel", "Palestina"]

/-- The list comprehension of extract_claim_keywords: vocabulary terms found in
the text, in vocabulary order. -/
def foundTerms (text : String) : List String :=
  claimVocab.filter (fun kw => reSearchWord kw.data text.data)

/-- Python " ".join on character lists. -/
def joinSpace : List (List Char) → List Char
  | [] => []
  | [w] => w
  | w :: ws => w ++ ' ' :: joinSpace ws

/-- social_media_agent.py Scheduler.extract_claim_keywords. -/
def extract_claim_keywords (text : String) : String :=
  ⟨joinSpace ((foundTerms text).map String.data)⟩

/-- The fact-check query construction of Scheduler.run_job (its lines 579-587):
strip the extracted terms; if non-empty append a space and the originating
keyword, otherwise fall back to the keyword (the source assigns the keyword
twice in the fallback branch; the net effect is the keyword). -/
def claimQuery (content keyword : String) : String :=
  let q := pyStrip (extract_claim_keywords content)
  if q = "" then keyword else q ++ " " ++ keyword

/-! ## Classifier (social_media_agent.py NewsClassifier.classify; the blank-input
branch is the same code as classifier.py NewsClassifier.classify lines 65-68) -/

/-- The label/score pair returned by classify. -/
structure ClassifyResult where
  label : Option String
  score : Option ℚ
deriving DecidableEq

/-- Python max(list, key=score) keeping the first maximal element; none on []. -/
def pyMaxBy : List (String × ℚ) → Option (String × ℚ)
  | [] => none
  | x :: xs => some (xs.foldl (fun a y => if y.2 > a.2 then y else a) x)

/-- self.label_map.get(label, label). -/
def labelMap (s : String) : String :=
  if s = "LABEL_0" then "not_hoax" else if s = "LABEL_1" then "hoax" else s

/-- NewsClassifier.classify with the HuggingFace pipeline as an oracle returning
label/score pairs.  Blank (whitespace-only) input short-circuits to
label = none, score = none before the pipeline is consulted.  The pipeline
always returns at least one label, so the pyMaxBy none branch is unreachable. -/
def NewsClassifier.classify (pipe : String → List (String × ℚ)) (text : String) : ClassifyResult :=
  if pyStrip text = "" then ⟨none, none⟩
  else
    match pyMaxBy (pipe text) with
    | none => ⟨none, none⟩
    | some best =>
      let label := labelMap best.1
      let adjusted := if label = "hoax" ∧ best.2 < (13 : ℚ) / 20 then "not_hoax" else label
      ⟨some adjusted, some best.2⟩

/-! ## Fact-check matcher (fact_checker.py FactChecker.search_claim) -/

/-- One entry of a candidate claim's claimReview list. -/
structure Review where
  url : Option String
  title : Option String
  textualRating : Option String
  publisher : Option String
  reviewDate : Option String
deriving DecidableEq

/-- One candidate claim from the fact-check search response; text defaults to
the empty string when the key is absent. -/
structure FCClaim where
  text : String
  claimReview : List Review
deriving DecidableEq

/-- The dictionary built for best_match, including the similarity score. -/
structure FCMatch where
  url : Option String
  title : Option String
  textualRating : Option String
  publisher : Option String
  reviewDate : Option String
  similarity_score : Nat
deriving DecidableEq

/-- The comparison text of a candidate: its own text, else the first review's
title (defaulted to ""), else "". -/
def claimText (c : FCClaim) : String :=
  if c.text = "" then
    match c.claimReview with
    | r :: _ => r.title.getD ""
    | [] => ""
  else c.text

/-- Build the best_match dictionary from a review and a score. -/
def toMatch (r : Review) (score : Nat) : FCMatch :=
  ⟨r.url, r.title, r.textualRating, r.publisher, r.reviewDate, score⟩

/-- One iteration of the search_claim candidate loop over state
(best_match, best_score): skip candidates with no comparison text; update
best_score whenever the score strictly exceeds it and meets the threshold;
best_match is rebuilt from the candidate's first review only when it has one. -/
def matcherStep (f : String → String → Nat) (thr : Nat) (q : String)
    (st : Option FCMatch × Nat) (c : FCClaim) : Option FCMatch × Nat :=
  if claimText c = "" then st
  else
    let s := f q (claimText c)
    if st.2 < s ∧ thr ≤ s then
      match c.claimReview with
      | r :: _ => (some (toMatch r s), s)
      | [] => (st.1, s)
    else st

/-- The candidate loop of search_claim (fact_checker.py lines 70-108), started
from best_match = None, best_score = 0; returns best_match. -/
def searchBest (f : String → String → Nat) (thr : Nat) (q : String)
    (claims : List FCClaim) : Option FCMatch :=
  (claims.foldl (matcherStep f thr q) (none, 0)).1

/-- The similarity scorer actually used: fuzz.token_set_ratio when thefuzz is
installed, the constant 100 otherwise. -/
def effScore (fuzzAvail : Bool) (f : String → String → Nat) (q ct : String) : Nat :=
  if fuzzAvail then f q ct else 100

/-- fact_checker.py FactChecker.search_claim: missing API key and transport
failure and an empty claims list all yield None; otherwise run the matcher. -/
def FactChecker.search_claim (apiKey : Option String) (fuzzAvail : Bool)
    (f : String → String → Nat) (httpResp : Except Unit (List FCClaim))
    (text : String) (thr : Nat) : Option FCMatch :=
  if pyTruthy apiKey = false then none
  else
    match httpResp with
    | Except.error _ => none
    | Except.ok claims =>
      if claims = [] then none else searchBest (effScore fuzzAvail f) thr text claims

/-- The scores of the eligible candidates: non-empty comparison text and score
at least the threshold (specification-side helper). -/
def eligScores (f : String → String → Nat) (thr : Nat) (q : String)
    (claims : List FCClaim) : List Nat :=
  claims.filterMap (fun c =>
    if claimText c ≠ "" ∧ thr ≤ f q (claimText c) then some (f q (claimText c)) else none)

/-- The best eligible score (0 when no candidate is eligible). -/
def bestEligScore (f : String → String → Nat) (thr : Nat) (q : String)
    (claims : List FCClaim) : Nat :=
  (eligScores f thr q claims).foldr max 0

/-- The first candidate whose comparison text is non-empty and whose score is
exactly M (specification-side helper). -/
def winnerOf (f : String → String → Nat) (q : String)
    (claims : List FCClaim) (M : Nat) : Option FCClaim :=
  claims.find? (fun c => decide (claimText c ≠ "") && decide (f q (claimText c) = M))

/-- The match the specification predicts: the first review of the first
max-attaining candidate, annotated with M. -/
def specWinner (f : String → String → Nat) (q : String)
    (claims : List FCClaim) (M : Nat) : Option FCMatch :=
  match winnerOf f q claims M with
  | some c =>
    match c.claimReview with
    | r :: _ => some (toMatch r M)
    | [] => none
  | none => none

/-! ## Database upsert (database.py Database.insert_posts) -/

/-- The duplicate branch of insert_posts: overwrite exactly the five enrichment
columns of the existing row; all other columns keep their persisted values. -/
def mergeEnrichment (row : Row) (p : Post) : Row :=
  { row with
    predicted_label := p.predicted_label
    prediction_score := p.prediction_score
    fact_check_url := p.fact_check_url
    fact_check_rating := p.fact_check_rating
    fact_check_publisher := p.fact_check_publisher }

/-- The insert branch of insert_posts: a new row copying every Post field, with
inserted_at set to the current instant. -/
def rowOfPost (now : Nat) (p : Post) : Row :=
  ⟨p.platform, p.keyword, p.content, p.url, p.created_at, p.author,
   p.predicted_label, p.prediction_score, p.fact_check_url, p.fact_check_rating,
   p.fact_check_publisher, now⟩

/-- One loop iteration of insert_posts: session.query(...).filter_by(url)
.first() finds the first row with the post's url and is updated in place;
otherwise the new row is added at the end (the session flushes adds in order,
so within one batch a later post sees the rows added for earlier posts). -/
def upsertOne (now : Nat) : List Row → Post → List Row
  | [], p => [rowOfPost now p]
  | r :: rest, p =>
    if r.url = p.url then mergeEnrichment r p :: rest
    else r :: upsertOne now rest p

/-- The whole insert_posts loop over a session view of the table. -/
def insertPostsSession (now : Nat) (rows : List Row) (posts : List Post) : List Row :=
  posts.foldl (upsertOne now) rows

/-- Outcome of one insert_posts call: the persisted table afterwards, and
whether the except-branch ran (logger.exception; the exception is swallowed,
never re-raised — the function is total). -/
structure InsertOutcome where
  persisted : List Row
  errorLogged : Bool
deriving DecidableEq

/-- database.py Database.insert_posts.  failAt = some k models an exception
raised after k loop iterations (k = posts.length meaning at commit): the
session is rolled back, so the persisted table is unchanged, the failure is
logged, and nothing propagates.  failAt = none is the failure-free run whose
commit persists the whole batch. -/
def insert_posts (db : List Row) (posts : List Post) (now : Nat)
    (failAt : Option Nat) : InsertOutcome :=
  match failAt with
  | some k =>
    if k ≤ posts.length then ⟨db, true⟩
    else ⟨insertPostsSession now db posts, false⟩
  | none => ⟨insertPostsSession now db posts, false⟩

/-! ## Orchestrator (social_media_agent.py Scheduler.run_job) -/

/-- Records produced by the fetch phase, plus how many times each adapter's
fetch method was invoked. -/
structure FetchOutcome where
  posts : List Post
  googleCalls : Nat
  twitterCalls : Nat
  redditCalls : Nat
deriving DecidableEq

/-- A fetch invocation inside its try/except: a raised exception is caught and
logged, contributing no records. -/
def fetchResult : Except Unit (List Post) → List Post
  | Except.ok l => l
  | Except.error _ => []

/-- Step 1 of run_job, transcribed with its actual indentation: the twitter
block is nested inside the google branch, so it only executes when the google
scraper object exists; the reddit block is at top level.  An adapter argument
of none means the scraper was not initialised (source disabled or its
constructor failed). -/
def runJobFetch (google twitter reddit : Option (Except Unit (List Post))) : FetchOutcome :=
  match google with
  | none =>
    match reddit with
    | none => ⟨[], 0, 0, 0⟩
    | some rr => ⟨fetchResult rr, 0, 0, 1⟩
  | some gr =>
    match twitter with
    | none =>
      match reddit with
      | none => ⟨fetchResult gr, 1, 0, 0⟩
      | some rr => ⟨fetchResult gr ++ fetchResult rr, 1, 0, 1⟩
    | some tr =>
      match reddit with
      | none => ⟨fetchResult gr ++ fetchResult tr, 1, 1, 0⟩
      | some rr => ⟨(fetchResult gr ++ fetchResult tr) ++ fetchResult rr, 1, 1, 1⟩

/-- What the in-agent FactChecker.search_claim returns to run_job. -/
structure FCReviewResult where
  url : Option String
  title : Option String
  textual_rating : Option String
  publisher : Option String
deriving DecidableEq

/-- Step 2 of run_job for one record: classify, store label and score on the
record, then log the score with the format spec .2f — which raises TypeError
when the score is None (blank content), aborting the run; then, when fact
checking is enabled and the label is hoax, build the query and copy a found
review's fields onto the record. -/
def processPost (classifyF : String → ClassifyResult)
    (factChecker : Option (String → Option FCReviewResult)) (post : Post) :
    Except Unit Post :=
  let result := classifyF post.content
  let p := { post with predicted_label := result.label, prediction_score := result.score }
  match result.score with
  | none => Except.error ()
  | some _ =>
    match factChecker with
    | some fc =>
      if p.predicted_label = some "hoax" then
        match fc (claimQuery post.content post.keyword) with
        | some r =>
          Except.ok { p with
            fact_check_url := r.url
            fact_check_rating := r.textual_rating
            fact_check_publisher := r.publisher }
        | none => Except.ok p
      else Except.ok p
    | none => Except.ok p

/-- Step 2 of run_job over the working set; the loop has no handler, so the
first raised TypeError propagates out of run_job. -/
def processPosts (classifyF : String → ClassifyResult)
    (factChecker : Option (String → Option FCReviewResult)) :
    List Post → Except Unit (List Post)
  | [] => Except.ok []
  | p :: ps =>
    match processPost classifyF factChecker p with
    | Except.error e => Except.error e
    | Except.ok p2 =>
      match processPosts classifyF factChecker ps with
      | Except.error e => Except.error e
      | Except.ok ps2 => Except.ok (p2 :: ps2)

/-- The whole run_job: fetch, classify plus fact-check, persist. -/
def run_job (google twitter reddit : Option (Except Unit (List Post)))
    (classifyF : String → ClassifyResult)
    (factChecker : Option (String → Option FCReviewResult))
    (db : List Row) (now : Nat) (failAt : Option Nat) :
    Except Unit InsertOutcome :=
  match processPosts classifyF factChecker (runJobFetch google twitter reddit).posts with
  | Except.error e => Except.error e
  | Except.ok posts2 => Except.ok (insert_posts db posts2 now failAt)

/-! ## Concrete values for witnesses and counterexamples -/

/-- A concrete twitter post. -/
def tw1 : Post :=
  ⟨"twitter", "vaksin", "ada vaksin", "https://twitter.com/u/status/1", 3,
   some "u", none, none, none, none, none⟩

/-- A concrete record whose content is whitespace-only. -/
def blankPost : Post :=
  ⟨"google", "vaksin", "   ", "https://news.example/1", 5,
   none, none, none, none, none, none⟩

/-- An environment with no variables set. -/
def emptyEnv : String → Option String := fun _ => none

/-- A concrete scorer for the matcher examples, keyed on the candidate text. -/
def exScore : String → String → Nat := fun _ ct =>
  if ct = "a" then 40 else if ct = "b" then 72 else if ct = "c" then 72
  else if ct = "d" then 90 else if ct = "e" then 80 else if ct = "g" then 80 else 0

/-- A review carrying a distinguishing url. -/
def rv (u : String) : Review := ⟨some u, some ("t" ++ u), some "False", some "P", none⟩

/-- Candidates scoring 40, 72, 72, 90 under exScore. -/
def cl90 : List FCClaim :=
  [⟨"a", [rv "ra"]⟩, ⟨"b", [rv "rb"]⟩, ⟨"c", [rv "rc"]⟩, ⟨"d", [rv "rd"]⟩]

/-- Candidates scoring 80, 80 under exScore. -/
def cl80 : List FCClaim := [⟨"e", [rv "re"]⟩, ⟨"g", [rv "rg"]⟩]

/-- Two records sharing a url: a capture and its later enriched version. -/
def capA : Post :=
  ⟨"google", "vaksin", "isi asli", "https://news.example/a", 11,
   some "penulis", none, none, none, none, none⟩

/-- The enriched re-ingestion of capA (same url, different capture fields). -/
def capA2 : Post :=
  ⟨"google", "covid", "isi baru", "https://news.example/a", 99,
   some "lain", some "hoax", some ((9 : ℚ) / 10), some "https://cek.example",
   some "Salah", some "TurnBackHoax"⟩

/-- A record with the same content as capD but a different url. -/
def capC : Post :=
  ⟨"google", "vaksin", "konten sama", "https://news.example/c", 1,
   none, none, none, none, none, none⟩

/-- A record with the same content as capC but a different url. -/
def capD : Post :=
  ⟨"google", "vaksin", "konten sama", "https://news.example/d", 2,
   none, none, none, none, none, none⟩

/-! ## Helper lemmas: database upsert -/

theorem upsertOne_no_match (now : Nat) (rows : List Row) (p : Post)
    (h : ∀ row ∈ rows, row.url ≠ p.url) :
    upsertOne now rows p = rows ++ [rowOfPost now p] := by
  induction rows with
  | nil => rfl
  | cons r rest ih =>
    have hr : r.url ≠ p.url := h r (List.mem_cons_self r rest)
    simp only [upsertOne, if_neg hr, List.cons_append, List.cons.injEq, true_and]
    exact ih (fun row hrow => h row (List.mem_cons_of_mem r hrow))

theorem upsertOne_prepend (now : Nat) (pre rows : List Row) (p : Post)
    (h : ∀ row ∈ pre, row.url ≠ p.url) :
    upsertOne now (pre ++ rows) p = pre ++ upsertOne now rows p := by
  induction pre with
  | nil => rfl
  | cons r rest ih =>
    have hr : r.url ≠ p.url := h r (List.mem_cons_self r rest)
    simp only [List.cons_append, upsertOne, if_neg hr, List.cons.injEq, true_and]
    exact ih (fun row hrow => h row (List.mem_cons_of_mem r hrow))

theorem upsertOne_match_head (now : Nat) (row : Row) (rest : List Row) (p : Post)
    (h : row.url = p.url) :
    upsertOne now (row :: rest) p = mergeEnrichment row p :: rest := by
  simp [upsertOne, h]

/-! ## Claim theorems -/

/-- C1: the spec says run_job invokes each enabled source adapter exactly once
and proceeds after a source's total failure.  The code nests the twitter block
inside the google branch, so with the google scraper absent (disabled or its
construction failed) an enabled twitter adapter is invoked zero times and its
records are lost; with google present the same twitter adapter is invoked. -/
theorem run_job_skips_twitter_without_google :
    runJobFetch none (some (Except.ok [tw1])) none = ⟨[], 0, 0, 0⟩ ∧
    runJobFetch (some (Except.ok [])) (some (Except.ok [tw1])) none = ⟨[tw1], 1, 1, 0⟩ :=
  ⟨rfl, rfl⟩

/-- C4: an operation failing on every attempt, wrapped with max_retries = 3, is
invoked exactly 3 times and the wrapper returns the empty list, not an error
(retry_request is total; the raised exceptions are consumed by the loop). -/
theorem retry_request_exhaustion {α : Type} (f : Nat → Except Unit (List α))
    (h : ∀ n, f n = Except.error ()) : retry_request f 3 = ([], 3) := by
  simp [retry_request, retryGo, h]

/-- C4 witness: the always-failing operation at max_retries = 3. -/
theorem retry_request_exhaustion_witness : retry_request alwaysFail 3 = ([], 3) :=
  retry_request_exhaustion alwaysFail (fun _ => rfl)

/-- C5: a record with whitespace-only content is classified as
label = none, score = none (the claim's true half), but run_job then formats
the None score with the .2f format spec, raising TypeError: the per-record
loop aborts and the run does not continue normally. -/
theorem blank_content_classification (pipe : String → List (String × ℚ))
    (fc : Option (String → Option FCReviewResult)) :
    NewsClassifier.classify pipe "   " = ⟨none, none⟩ ∧
    processPost (NewsClassifier.classify pipe) fc blankPost = Except.error () ∧
    processPosts (NewsClassifier.classify pipe) fc [blankPost] = Except.error () :=
  ⟨rfl, rfl, rfl⟩

/-- C7: insert_posts applies the batch atomically: any failure partway (after k
of the posts, or at commit) rolls the whole batch back — the persisted table is
exactly the one before the call — logs the failure, and raises nothing (the
function is total and the run proceeds); without failure the commit persists
the fold of the whole batch. -/
theorem insert_posts_atomic (db : List Row) (posts : List Post) (now k : Nat)
    (hk : k ≤ posts.length) :
    insert_posts db posts now (some k) = ⟨db, true⟩ ∧
    insert_posts db posts now none = ⟨insertPostsSession now db posts, false⟩ := by
  constructor
  · simp [insert_posts, hk]
  · rfl

/-- C7 witness: a failure at the first record of a concrete batch. -/
theorem insert_posts_atomic_witness :
    insert_posts [] [blankPost] 5 (some 0) = ⟨[], true⟩ ∧
    insert_posts [] [blankPost] 5 none = ⟨insertPostsSession 5 [] [blankPost], false⟩ :=
  insert_posts_atomic [] [blankPost] 5 0 (by decide)

/-- C2: ingesting two records with the same url in sequence into a table with
no row for that url leaves exactly one row for it, which merges the first
record's capture fields (content, created_at, author, platform, keyword) with
the second record's enrichment fields; and url is the sole deduplication key:
two records with identical content but different urls produce two rows. -/
theorem upsert_same_url_merges :
    (∀ (db : List Row) (r1 r2 : Post) (now : Nat),
      r1.url = r2.url → (∀ row ∈ db, row.url ≠ r1.url) →
      (insert_posts db [r1, r2] now none).persisted
          = db ++ [mergeEnrichment (rowOfPost now r1) r2] ∧
      ((insert_posts db [r1, r2] now none).persisted.countP
          (fun row => row.url == r1.url)) = 1 ∧
      (mergeEnrichment (rowOfPost now r1) r2).content = r1.content ∧
      (mergeEnrichment (rowOfPost now r1) r2).created_at = r1.created_at ∧
      (mergeEnrichment (rowOfPost now r1) r2).author = r1.author ∧
      (mergeEnrichment (rowOfPost now r1) r2).platform = r1.platform ∧
      (mergeEnrichment (rowOfPost now r1) r2).keyword = r1.keyword ∧
      (mergeEnrichment (rowOfPost now r1) r2).inserted_at = now ∧
      (mergeEnrichment (rowOfPost now r1) r2).predicted_label = r2.predicted_label ∧
      (mergeEnrichment (rowOfPost now r1) r2).prediction_score = r2.prediction_score ∧
      (mergeEnrichment (rowOfPost now r1) r2).fact_check_url = r2.fact_check_url ∧
      (mergeEnrichment (rowOfPost now r1) r2).fact_check_rating = r2.fact_check_rating ∧
      (mergeEnrichment (rowOfPost now r1) r2).fact_check_publisher = r2.fact_check_publisher) ∧
    (∀ (r1 r2 : Post) (now : Nat), r1.url ≠ r2.url →
      (insert_posts [] [r1, r2] now none).persisted.length = 2) := by
  constructor
  · intro db r1 r2 now hurl hfresh
    have h1 : upsertOne now db r1 = db ++ [rowOfPost now r1] :=
      upsertOne_no_match now db r1 hfresh
    have hfresh2 : ∀ row ∈ db, row.url ≠ r2.url := by
      intro row hrow
      rw [← hurl]
      exact hfresh row hrow
    have h2 : upsertOne now (db ++ [rowOfPost now r1]) r2
        = db ++ [mergeEnrichment (rowOfPost now r1) r2] := by
      rw [upsertOne_prepend now db [rowOfPost now r1] r2 hfresh2]
      rw [upsertOne_match_head now (rowOfPost now r1) [] r2 hurl]
    have hdb : (insert_posts db [r1, r2] now none).persisted
        = db ++ [mergeEnrichment (rowOfPost now r1) r2] := by
      simp only [insert_posts, insertPostsSession, List.foldl_cons, List.foldl_nil]
      rw [h1, h2]
    refine ⟨hdb, ?_, rfl, rfl, rfl, rfl, rfl, rfl, rfl, rfl, rfl, rfl, rfl⟩
    rw [hdb, List.countP_append]
    have hz : db.countP (fun row => row.url == r1.url) = 0 := by
      rw [List.countP_eq_zero]
      intro row hrow
      simpa using hfresh row hrow
    have ho : (mergeEnrichment (rowOfPost now r1) r2).url = r1.url := rfl
    simp [hz, List.countP_cons, ho]
  · intro r1 r2 now hurl
    have h1 : upsertOne now [] r1 = [rowOfPost now r1] := rfl
    have h2 : upsertOne now [rowOfPost now r1] r2
        = [rowOfPost now r1] ++ [rowOfPost now r2] := by
      apply upsertOne_no_match
      intro row hrow
      simp only [List.mem_singleton] at hrow
      subst hrow
      exact hurl
    simp only [insert_posts, insertPostsSession, List.foldl_cons, List.foldl_nil]
    rw [h1, h2]
    rfl

/-- C2 witness: the concrete pair capA, capA2 sharing a url, and capC, capD
sharing content but not url. -/
theorem upsert_same_url_merges_witness :
    (insert_posts [] [capA, capA2] 7 none).persisted
        = [mergeEnrichment (rowOfPost 7 capA) capA2] ∧
    ((insert_posts [] [capA, capA2] 7 none).persisted.countP
        (fun row => row.url == capA.url)) = 1 ∧
    (insert_posts [] [capC, capD] 7 none).persisted.length = 2 := by
  have h := (upsert_same_url_merges.1 [] capA capA2 7 rfl (by simp))
  exact ⟨h.1, h.2.1, upsert_same_url_merges.2 capC capD 7 (by decide)⟩

/-- C6: upserting a record whose url matches a persisted row overwrites only
that row's five enrichment columns; its content, created_at, author, platform,
keyword and inserted_at are unchanged, and every other row is untouched. -/
theorem upsert_existing_overwrites_enrichment_only
    (pre post : List Row) (row : Row) (r : Post) (now : Nat)
    (hurl : row.url = r.url) (hpre : ∀ x ∈ pre, x.url ≠ r.url) :
    (insert_posts (pre ++ row :: post) [r] now none).persisted
        = pre ++ mergeEnrichment row r :: post ∧
    (mergeEnrichment row r).content = row.content ∧
    (mergeEnrichment row r).created_at = row.created_at ∧
    (mergeEnrichment row r).author = row.author ∧
    (mergeEnrichment row r).platform = row.platform ∧
    (mergeEnrichment row r).keyword = row.keyword ∧
    (mergeEnrichment row r).url = row.url ∧
    (mergeEnrichment row r).inserted_at = row.inserted_at ∧
    (mergeEnrichment row r).predicted_label = r.predicted_label ∧
    (mergeEnrichment row r).prediction_score = r.prediction_score ∧
    (mergeEnrichment row r).fact_check_url = r.fact_check_url ∧
    (mergeEnrichment row r).fact_check_rating = r.fact_check_rating ∧
    (mergeEnrichment row r).fact_check_publisher = r.fact_check_publisher := by
  refine ⟨?_, rfl, rfl, rfl, rfl, rfl, rfl, rfl, rfl, rfl, rfl, rfl, rfl⟩
  simp only [insert_posts, insertPostsSession, List.foldl_cons, List.foldl_nil]
  rw [upsertOne_prepend now pre (row :: post) r hpre,
    upsertOne_match_head now row post r hurl]

/-- C6 witness: a concrete persisted row updated by capA2. -/
theorem upsert_existing_overwrites_enrichment_only_witness :
    (insert_posts ([] ++ rowOfPost 3 capA :: []) [capA2] 9 none).persisted
        = [] ++ mergeEnrichment (rowOfPost 3 capA) capA2 :: [] ∧
    (mergeEnrichment (rowOfPost 3 capA) capA2).content = (rowOfPost 3 capA).content ∧
    (mergeEnrichment (rowOfPost 3 capA) capA2).inserted_at = (rowOfPost 3 capA).inserted_at := by
  have h := upsert_existing_overwrites_enrichment_only [] [] (rowOfPost 3 capA) capA2 9
    rfl (by simp)
  exact ⟨h.1, h.2.1, h.2.2.2.2.2.2.2.1⟩

/-! ## Helper lemmas: strings, joining and stripping -/

theorem headAppendNe (l1 l2 : List Char) (h : l1 ≠ []) : (l1 ++ l2).head? = l1.head? := by
  cases l1 with
  | nil => exact absurd rfl h
  | cons a t => rfl

theorem lastAppendNe (l1 l2 : List Char) (h : l2 ≠ []) : (l1 ++ l2).getLast? = l2.getLast? := by
  rw [← List.head?_reverse, List.reverse_append, headAppendNe _ _ (by simpa using h),
    List.head?_reverse]

theorem joinSpace_ne_nil (w : List Char) (ws : List (List Char)) (hw : w ≠ []) :
    joinSpace (w :: ws) ≠ [] := by
  cases ws with
  | nil => simpa [joinSpace] using hw
  | cons x t => simp [joinSpace]

theorem joinSpace_head_no_space (ws : List (List Char))
    (h : ∀ w ∈ ws, w ≠ [] ∧ ∀ c ∈ w, isPySpace c = false) :
    ∀ c, (joinSpace ws).head? = some c → isPySpace c = false := by
  intro c hc
  cases ws with
  | nil => simp [joinSpace] at hc
  | cons w ws2 =>
    have hw := h w (List.mem_cons_self w ws2)
    have hh : (joinSpace (w :: ws2)).head? = w.head? := by
      cases ws2 with
      | nil => rfl
      | cons x t =>
        show (w ++ ' ' :: joinSpace (x :: t)).head? = w.head?
        exact headAppendNe _ _ hw.1
    rw [hh] at hc
    have hcmem : c ∈ w := by
      cases w with
      | nil => simp at hc
      | cons a t =>
        simp only [List.head?_cons, Option.some.injEq] at hc
        simp [← hc]
    exact hw.2 c hcmem

theorem joinSpace_last_no_space (ws : List (List Char))
    (h : ∀ w ∈ ws, w ≠ [] ∧ ∀ c ∈ w, isPySpace c = false) :
    ∀ c, (joinSpace ws).getLast? = some c → isPySpace c = false := by
  induction ws with
  | nil => intro c hc; simp [joinSpace] at hc
  | cons w ws2 ih =>
    intro c hc
    cases ws2 with
    | nil =>
      have hw := h w (List.mem_cons_self w [])
      have hc2 : w.getLast? = some c := hc
      exact hw.2 c (List.mem_of_getLast?_eq_some hc2)
    | cons x t =>
      have hx : x ≠ [] := (h x (by simp)).1
      have hjs : joinSpace (x :: t) ≠ [] := joinSpace_ne_nil x t hx
      have hstep : (joinSpace (w :: x :: t)).getLast? = (joinSpace (x :: t)).getLast? := by
        show (w ++ ' ' :: joinSpace (x :: t)).getLast? = (joinSpace (x :: t)).getLast?
        rw [lastAppendNe _ _ (by simp)]
        show ([' '] ++ joinSpace (x :: t)).getLast? = (joinSpace (x :: t)).getLast?
        exact lastAppendNe _ _ hjs
      rw [hstep] at hc
      exact ih (fun u hu => h u (List.mem_cons_of_mem w hu)) c hc

theorem dropWhile_eq_self_of_head (p : Char → Bool) (l : List Char)
    (h : ∀ c, l.head? = some c → p c = false) : l.dropWhile p = l := by
  cases l with
  | nil => rfl
  | cons a t => simp [List.dropWhile_cons, h a rfl]

theorem pyStripL_joinSpace (ws : List (List Char))
    (h : ∀ w ∈ ws, w ≠ [] ∧ ∀ c ∈ w, isPySpace c = false) :
    pyStripL (joinSpace ws) = joinSpace ws := by
  have h1 : (joinSpace ws).dropWhile isPySpace = joinSpace ws :=
    dropWhile_eq_self_of_head _ _ (joinSpace_head_no_space ws h)
  have h2 : (joinSpace ws).reverse.dropWhile isPySpace = (joinSpace ws).reverse := by
    apply dropWhile_eq_self_of_head
    intro c hc
    rw [List.head?_reverse] at hc
    exact joinSpace_last_no_space ws h c hc
  simp [pyStripL, h1, h2]

theorem vocab_words_clean :
    ∀ s ∈ claimVocab, s.data ≠ [] ∧ ∀ c ∈ s.data, isPySpace c = false := by decide

theorem foundTerms_words_clean (text : String) :
    ∀ w ∈ (foundTerms text).map String.data, w ≠ [] ∧ ∀ c ∈ w, isPySpace c = false := by
  intro w hw
  simp only [List.mem_map] at hw
  obtain ⟨s, hs, rfl⟩ := hw
  exact vocab_words_clean s (List.mem_filter.mp hs).1

theorem pyStrip_extract (text : String) :
    pyStrip (extract_claim_keywords text) = extract_claim_keywords text := by
  show String.mk (pyStripL (joinSpace ((foundTerms text).map String.data)))
      = String.mk (joinSpace ((foundTerms text).map String.data))
  exact congrArg String.mk (pyStripL_joinSpace _ (foundTerms_words_clean text))

theorem extract_eq_empty_iff (text : String) :
    extract_claim_keywords text = "" ↔ foundTerms text = [] := by
  constructor
  · intro h
    have hdata : joinSpace ((foundTerms text).map String.data) = [] := congrArg String.data h
    cases hf : foundTerms text with
    | nil => rfl
    | cons s rest =>
      exfalso
      have hsmem : s ∈ foundTerms text := by rw [hf]; exact List.mem_cons_self s rest
      have hs : s.data ≠ [] := (vocab_words_clean s (List.mem_filter.mp hsmem).1).1
      rw [hf] at hdata
      exact joinSpace_ne_nil s.data (rest.map String.data) hs hdata
  · intro h
    show String.mk (joinSpace ((foundTerms text).map String.data)) = ""
    rw [h]
    rfl

/-! ## Helper lemmas: the regex model -/

theorem ciStartsWith_iff (kw : List Char) : ∀ ts : List Char,
    ciStartsWith kw ts = true ↔
      kw.length ≤ ts.length ∧ (ts.take kw.length).map Char.toLower = kw.map Char.toLower := by
  induction kw with
  | nil => intro ts; simp [ciStartsWith]
  | cons k ks ih =>
    intro ts
    cases ts with
    | nil => simp [ciStartsWith]
    | cons t ts2 =>
      simp only [ciStartsWith, Bool.and_eq_true, beq_iff_eq, ih ts2, List.length_cons,
        List.take_succ_cons, List.map_cons, List.cons.injEq]
      constructor
      · rintro ⟨h1, h2, h3⟩
        exact ⟨by omega, h1.symm, h3⟩
      · rintro ⟨h1, h2, h3⟩
        exact ⟨h2.symm, by omega, h3⟩

theorem reSearchWord_iff (kw text : List Char) :
    reSearchWord kw text = true ↔ OccursWholeWord kw text := by
  unfold reSearchWord OccursWholeWord
  rw [List.any_eq_true]
  constructor
  · rintro ⟨i, hi, hmatch⟩
    rw [List.mem_range] at hi
    unfold wholeWordAt at hmatch
    rw [Bool.and_eq_true, Bool.and_eq_true] at hmatch
    obtain ⟨⟨hA, hB⟩, hC⟩ := hmatch
    rw [ciStartsWith_iff] at hB
    obtain ⟨hlen, hmap⟩ := hB
    refine ⟨text.take i, (text.drop i).take kw.length, (text.drop i).drop kw.length, ?_, hmap, hA, ?_⟩
    · have h1 : (text.drop i).take kw.length ++ (text.drop i).drop kw.length = text.drop i :=
        List.take_append_drop _ _
      rw [h1, List.take_append_drop]
    · rw [List.drop_drop]
      exact hC
  · rintro ⟨a, w, b, rfl, hmap, hA, hB⟩
    have hwlen : w.length = kw.length := by
      have := congrArg List.length hmap
      simpa using this
    refine ⟨a.length, ?_, ?_⟩
    · rw [List.mem_range]
      simp only [List.length_append]
      omega
    · unfold wholeWordAt
      rw [Bool.and_eq_true, Bool.and_eq_true]
      refine ⟨⟨?_, ?_⟩, ?_⟩
      · rw [List.take_left]
        exact hA
      · rw [List.drop_left, ciStartsWith_iff]
        refine ⟨by simp only [List.length_append]; omega, ?_⟩
        rw [← hwlen, List.take_left]
        exact hmap
      · rw [show a ++ (w ++ b) = (a ++ w) ++ b from (List.append_assoc a w b).symm, ← hwlen,
          ← List.length_append, List.drop_left]
        exact hB

/-- C8: extract_claim_keywords returns exactly the vocabulary terms occurring
whole-word case-insensitively in the text, joined by single spaces in
vocabulary order (foundTerms is the in-order filter of the vocabulary, a
sublist of it); with no match it returns the empty string, and the query
run_job builds then falls back to the record's originating keyword. -/
theorem extract_claim_keywords_spec (text kw : String) :
    extract_claim_keywords text = ⟨joinSpace ((foundTerms text).map String.data)⟩ ∧
    (∀ t : String, t ∈ foundTerms text ↔ t ∈ claimVocab ∧ OccursWholeWord t.data text.data) ∧
    List.Sublist (foundTerms text) claimVocab ∧
    (extract_claim_keywords text = "" ↔ foundTerms text = []) ∧
    (extract_claim_keywords text = "" → claimQuery text kw = kw) := by
  refine ⟨rfl, ?_, List.filter_sublist _, extract_eq_empty_iff text, ?_⟩
  · intro t
    simp only [foundTerms, List.mem_filter]
    rw [reSearchWord_iff]
  · intro h
    show (if pyStrip (extract_claim_keywords text) = "" then kw
      else pyStrip (extract_claim_keywords text) ++ " " ++ kw) = kw
    rw [pyStrip_extract, h]
    simp

/-- C8 witness: a text containing none of the vocabulary terms. -/
theorem extract_claim_keywords_spec_witness :
    extract_claim_keywords "halo dunia" = "" ∧
    claimQuery "halo dunia" "pemilu" = "pemilu" := by
  have h := extract_claim_keywords_spec "halo dunia" "pemilu"
  have he : extract_claim_keywords "halo dunia" = "" := (h.2.2.2.1).mpr (by decide)
  exact ⟨he, h.2.2.2.2 he⟩

/-- C10: when extraction is non-empty, the fact-check query run_job sends is
the extracted terms, one space, then the originating keyword; the keyword
alone is the query exactly when extraction returns the empty string. -/
theorem claim_query_composition (content keyword : String) :
    (extract_claim_keywords content ≠ "" →
      claimQuery content keyword = extract_claim_keywords content ++ " " ++ keyword) ∧
    (extract_claim_keywords content = "" → claimQuery content keyword = keyword) := by
  have hq : claimQuery content keyword =
      if extract_claim_keywords content = "" then keyword
      else extract_claim_keywords content ++ " " ++ keyword := by
    show (if pyStrip (extract_claim_keywords content) = "" then keyword
      else pyStrip (extract_claim_keywords content) ++ " " ++ keyword) = _
    rw [pyStrip_extract]
  constructor
  · intro h
    rw [hq, if_neg h]
  · intro h
    rw [hq, if_pos h]

/-- C10 witness: a content matching two vocabulary terms (case-insensitively). -/
theorem claim_query_composition_witness :
    extract_claim_keywords "Vaksin itu mengandung chip" ≠ "" ∧
    claimQuery "Vaksin itu mengandung chip" "covid"
      = extract_claim_keywords "Vaksin itu mengandung chip" ++ " " ++ "covid" := by
  have h : extract_claim_keywords "Vaksin itu mengandung chip" ≠ "" := by decide
  exact ⟨h, (claim_query_composition "Vaksin itu mengandung chip" "covid").1 h⟩

/-- C9 counterexample: with client id and secret supplied but the user-agent
missing from both the constructor parameters and the environment, construction
succeeds (using the default user-agent), contradicting the claim that it fails
whenever any of the three credential values is missing. -/
theorem reddit_init_missing_user_agent_succeeds :
    RedditScraper.init emptyEnv (some "abc") (some "xyz") none
      = Except.ok ⟨"abc", "xyz", "social_media_agent"⟩ := by
  rfl

/-- C9 amended: construction fails fast exactly when the client id or the
client secret resolves to a falsy value through parameter-then-environment
lookup (for every combination); a user-agent absent from both sources falls
back to the default "social_media_agent" and by itself never fails
construction.  In the Scheduler a failing forum constructor is caught and
only disables that adapter: the other adapters are exactly what their own
constructors produced. -/
theorem reddit_init_amended :
    (∀ (env : String → Option String) (cid csec : Option String),
      env "REDDIT_USER_AGENT" = none →
      (initOk (RedditScraper.init env cid csec none) = true ↔
        (pyTruthy (pyOr cid (env "REDDIT_CLIENT_ID")) = true ∧
         pyTruthy (pyOr csec (env "REDDIT_CLIENT_SECRET")) = true))) ∧
    (∀ (sources : List String) (tCtor gCtor : Except String Nat) (e : String),
      initScrapers sources tCtor (Except.error e : Except String Nat) gCtor =
        ((if "twitter" ∈ sources then tCtor.toOption else none), none,
         (if "google" ∈ sources then gCtor.toOption else none))) := by
  constructor
  · intro env cid csec hua
    simp only [RedditScraper.init, hua, Option.getD_none]
    have hdflt : pyTruthy (pyOr none (some "social_media_agent")) = true := rfl
    rw [hdflt]
    cases hc : pyTruthy (pyOr cid (env "REDDIT_CLIENT_ID")) <;>
      cases hs : pyTruthy (pyOr csec (env "REDDIT_CLIENT_SECRET")) <;>
        simp [initOk]
  · intro sources tCtor gCtor e
    unfold initScrapers
    simp [Except.toOption]

/-- C9 amended witness: concrete credentials with the user-agent missing, and
a failing forum constructor in a twitter+reddit configuration. -/
theorem reddit_init_amended_witness :
    initOk (RedditScraper.init emptyEnv (some "id1") (some "sec1") none) = true ∧
    initScrapers ["twitter", "reddit"] (Except.ok 0 : Except String Nat)
        (Except.error "praw down" : Except String Nat) (Except.ok 1 : Except String Nat)
      = (some 0, none, none) := by
  constructor
  · exact (reddit_init_amended.1 emptyEnv (some "id1") (some "sec1") rfl).mpr ⟨rfl, rfl⟩
  · rw [reddit_init_amended.2 ["twitter", "reddit"] (Except.ok 0) (Except.ok 1) "praw down"]
    rfl

/-! ## Helper lemmas: the fact-check matcher -/

theorem mem_le_foldr_max (xs : List Nat) (x : Nat) (h : x ∈ xs) : x ≤ xs.foldr max 0 := by
  induction xs with
  | nil => simp at h
  | cons a t ih =>
    simp only [List.foldr_cons]
    rcases List.mem_cons.mp h with rfl | hm
    · exact Nat.le_max_left _ _
    · exact Nat.le_trans (ih hm) (Nat.le_max_right _ _)

theorem foldr_max_mem (xs : List Nat) (h1 : ∀ x ∈ xs, 1 ≤ x) (h0 : 0 < xs.foldr max 0) :
    xs.foldr max 0 ∈ xs := by
  induction xs with
  | nil => simp at h0
  | cons a t ih =>
    simp only [List.foldr_cons] at h0 ⊢
    rcases Nat.le_total (t.foldr max 0) a with hle | hle
    · rw [Nat.max_eq_left hle]
      exact List.mem_cons_self a t
    · rw [Nat.max_eq_right hle] at h0 ⊢
      exact List.mem_cons_of_mem a (ih (fun y hy => h1 y (List.mem_cons_of_mem a hy)) h0)

theorem mem_eligScores_iff (f : String → String → Nat) (thr : Nat) (q : String)
    (l : List FCClaim) (x : Nat) :
    x ∈ eligScores f thr q l ↔
      ∃ c ∈ l, claimText c ≠ "" ∧ thr ≤ f q (claimText c) ∧ f q (claimText c) = x := by
  simp only [eligScores, List.mem_filterMap]
  constructor
  · rintro ⟨c, hc, hx⟩
    by_cases hcond : claimText c ≠ "" ∧ thr ≤ f q (claimText c)
    · rw [if_pos hcond] at hx
      exact ⟨c, hc, hcond.1, hcond.2, Option.some.inj hx⟩
    · rw [if_neg hcond] at hx
      exact absurd hx (by simp)
  · rintro ⟨c, hc, h1, h2, h3⟩
    refine ⟨c, hc, ?_⟩
    rw [if_pos ⟨h1, h2⟩, h3]

theorem mem_eligScores_thr_le (f : String → String → Nat) (thr : Nat) (q : String)
    (l : List FCClaim) (x : Nat) (hx : x ∈ eligScores f thr q l) : thr ≤ x := by
  obtain ⟨c, hc, h1, h2, h3⟩ := (mem_eligScores_iff f thr q l x).mp hx
  omega

theorem bestElig_thr (f : String → String → Nat) (thr : Nat) (q : String)
    (l : List FCClaim) (hne : eligScores f thr q l ≠ []) :
    thr ≤ bestEligScore f thr q l := by
  obtain ⟨x, hx⟩ := List.exists_mem_of_ne_nil _ hne
  exact Nat.le_trans (mem_eligScores_thr_le f thr q l x hx) (mem_le_foldr_max _ _ hx)

theorem eligScores_cons (f : String → String → Nat) (thr : Nat) (q : String)
    (c : FCClaim) (t : List FCClaim) :
    eligScores f thr q (c :: t) =
      if claimText c ≠ "" ∧ thr ≤ f q (claimText c)
      then f q (claimText c) :: eligScores f thr q t
      else eligScores f thr q t := by
  by_cases h : claimText c ≠ "" ∧ thr ≤ f q (claimText c) <;>
    simp [eligScores, List.filterMap_cons, h]

theorem matcher_loop (f : String → String → Nat) (thr : Nat) (q : String) :
    ∀ (l : List FCClaim) (bm : Option FCMatch) (bs : Nat),
      (∀ c ∈ l, claimText c ≠ "" → c.claimReview ≠ []) →
      l.foldl (matcherStep f thr q) (bm, bs) =
        ((if bs < bestEligScore f thr q l
          then specWinner f q l (bestEligScore f thr q l) else bm),
         max bs (bestEligScore f thr q l)) := by
  intro l
  induction l with
  | nil =>
    intro bm bs hrev
    simp [bestEligScore, eligScores]
  | cons c t ih =>
    intro bm bs hrev
    have hrevt : ∀ x ∈ t, claimText x ≠ "" → x.claimReview ≠ [] :=
      fun x hx => hrev x (List.mem_cons_of_mem c hx)
    rw [List.foldl_cons]
    by_cases hct : claimText c = ""
    · have hstep : matcherStep f thr q (bm, bs) c = (bm, bs) := by
        simp [matcherStep, hct]
      have hM : bestEligScore f thr q (c :: t) = bestEligScore f thr q t := by
        unfold bestEligScore
        rw [eligScores_cons, if_neg (fun hcond => hcond.1 hct)]
      have hwin : specWinner f q (c :: t) (bestEligScore f thr q t)
          = specWinner f q t (bestEligScore f thr q t) := by
        unfold specWinner winnerOf
        rw [List.find?_cons_of_neg]
        simp [hct]
      rw [hstep, ih bm bs hrevt, hM, hwin]
    · by_cases hthr2 : thr ≤ f q (claimText c)
      · have hM : bestEligScore f thr q (c :: t)
            = max (f q (claimText c)) (bestEligScore f thr q t) := by
          unfold bestEligScore
          rw [eligScores_cons, if_pos ⟨hct, hthr2⟩]
          rfl
        by_cases hbs : bs < f q (claimText c)
        · obtain ⟨r, rs, hr⟩ : ∃ r rs, c.claimReview = r :: rs := by
            cases hcr : c.claimReview with
            | nil => exact absurd hcr (hrev c (List.mem_cons_self c t) hct)
            | cons r rs => exact ⟨r, rs, rfl⟩
          have hstep : matcherStep f thr q (bm, bs) c
              = (some (toMatch r (f q (claimText c))), f q (claimText c)) := by
            simp [matcherStep, hct, hr, hbs, hthr2]
          rw [hstep, ih _ _ hrevt, hM]
          have hR : max bs (max (f q (claimText c)) (bestEligScore f thr q t))
              = max (f q (claimText c)) (bestEligScore f thr q t) :=
            Nat.max_eq_right (Nat.le_trans (Nat.le_of_lt hbs) (Nat.le_max_left _ _))
          have hL1 : bs < max (f q (claimText c)) (bestEligScore f thr q t) :=
            Nat.lt_of_lt_of_le hbs (Nat.le_max_left _ _)
          rw [hR, if_pos hL1]
          by_cases h1 : f q (claimText c) < bestEligScore f thr q t
          · have hmax : max (f q (claimText c)) (bestEligScore f thr q t)
                = bestEligScore f thr q t := Nat.max_eq_right (Nat.le_of_lt h1)
            rw [hmax, if_pos h1]
            have hwin : specWinner f q (c :: t) (bestEligScore f thr q t)
                = specWinner f q t (bestEligScore f thr q t) := by
              unfold specWinner winnerOf
              rw [List.find?_cons_of_neg]
              simp [hct, Nat.ne_of_lt h1]
            rw [hwin]
          · have hmax : max (f q (claimText c)) (bestEligScore f thr q t)
                = f q (claimText c) := Nat.max_eq_left (Nat.le_of_not_lt h1)
            rw [hmax, if_neg h1]
            have hwof : winnerOf f q (c :: t) (f q (claimText c)) = some c := by
              unfold winnerOf
              exact List.find?_cons_of_pos _ (by simp [hct])
            have hwin : specWinner f q (c :: t) (f q (claimText c))
                = some (toMatch r (f q (claimText c))) := by
              unfold specWinner
              rw [hwof]
              show (match c.claimReview with
                | r2 :: _ => some (toMatch r2 (f q (claimText c)))
                | [] => none) = some (toMatch r (f q (claimText c)))
              rw [hr]
            rw [hwin]
        · have hstep : matcherStep f thr q (bm, bs) c = (bm, bs) := by
            have hno : ¬ (bs < f q (claimText c) ∧ thr ≤ f q (claimText c)) :=
              fun hh => hbs hh.1
            simp [matcherStep, hct, if_neg hno]
          rw [hstep, ih bm bs hrevt, hM]
          have hs_le : f q (claimText c) ≤ bs := Nat.le_of_not_lt hbs
          have hR : max bs (max (f q (claimText c)) (bestEligScore f thr q t))
              = max bs (bestEligScore f thr q t) := by
            rw [← Nat.max_assoc, Nat.max_eq_left hs_le]
          rw [hR]
          by_cases h2 : bs < bestEligScore f thr q t
          · have hL : bs < max (f q (claimText c)) (bestEligScore f thr q t) :=
              Nat.lt_of_lt_of_le h2 (Nat.le_max_right _ _)
            rw [if_pos hL, if_pos h2]
            have hmax : max (f q (claimText c)) (bestEligScore f thr q t)
                = bestEligScore f thr q t :=
              Nat.max_eq_right (Nat.le_trans hs_le (Nat.le_of_lt h2))
            rw [hmax]
            have hwin : specWinner f q (c :: t) (bestEligScore f thr q t)
                = specWinner f q t (bestEligScore f thr q t) := by
              unfold specWinner winnerOf
              rw [List.find?_cons_of_neg]
              simp [hct, Nat.ne_of_lt (Nat.lt_of_le_of_lt hs_le h2)]
            rw [hwin]
          · have hL : ¬ bs < max (f q (claimText c)) (bestEligScore f thr q t) := by
              rw [Nat.not_lt] at h2 ⊢
              exact Nat.max_le.mpr ⟨hs_le, h2⟩
            rw [if_neg hL, if_neg h2]
      · have hstep : matcherStep f thr q (bm, bs) c = (bm, bs) := by
          have hno : ¬ (bs < f q (claimText c) ∧ thr ≤ f q (claimText c)) :=
            fun hh => hthr2 hh.2
          simp [matcherStep, hct, if_neg hno]
        have hM : bestEligScore f thr q (c :: t) = bestEligScore f thr q t := by
          unfold bestEligScore
          rw [eligScores_cons, if_neg (fun hcond => hthr2 hcond.2)]
        rw [hstep, ih bm bs hrevt, hM]
        by_cases h2 : bs < bestEligScore f thr q t
        · rw [if_pos h2, if_pos h2]
          have hne : eligScores f thr q t ≠ [] := by
            intro hnil
            have hz : bestEligScore f thr q t = 0 := by
              unfold bestEligScore
              rw [hnil]
              rfl
            omega
          have hthrM : thr ≤ bestEligScore f thr q t := bestElig_thr f thr q t hne
          have hsne : f q (claimText c) ≠ bestEligScore f thr q t := by
            intro he
            exact hthr2 (he ▸ hthrM)
          have hwin : specWinner f q (c :: t) (bestEligScore f thr q t)
              = specWinner f q t (bestEligScore f thr q t) := by
            unfold specWinner winnerOf
            rw [List.find?_cons_of_neg]
            simp [hct, hsne]
          rw [hwin]
        · rw [if_neg h2, if_neg h2]

/-- C3: the search_claim candidate loop scores each candidate on its
comparison text (own text, else first review title; textless candidates are
skipped), returns none exactly when no scored candidate reaches the threshold,
and otherwise returns the first review of the first candidate attaining the
maximum eligible score, annotated with that score — so a strictly greater
score is required to displace the current best and the first-encountered
candidate wins ties.  Hypotheses: the threshold is positive (the source
default is 50) and every scoreable candidate carries at least one review. -/
theorem search_claim_matcher_spec (f : String → String → Nat) (thr : Nat) (q : String)
    (claims : List FCClaim) (hthr : 1 ≤ thr)
    (hrev : ∀ c ∈ claims, claimText c ≠ "" → c.claimReview ≠ []) :
    (searchBest f thr q claims = none ↔
      ∀ c ∈ claims, claimText c = "" ∨ f q (claimText c) < thr) ∧
    (∀ m, searchBest f thr q claims = some m →
      ∃ c r rs, winnerOf f q claims (bestEligScore f thr q claims) = some c ∧
        c.claimReview = r :: rs ∧
        m = toMatch r (bestEligScore f thr q claims) ∧
        claimText c ≠ "" ∧ thr ≤ f q (claimText c) ∧
        f q (claimText c) = bestEligScore f thr q claims ∧
        ∀ c2 ∈ claims, claimText c2 ≠ "" → thr ≤ f q (claimText c2) →
          f q (claimText c2) ≤ f q (claimText c)) := by
  have hBE : bestEligScore f thr q claims = (eligScores f thr q claims).foldr max 0 := rfl
  have hsb : searchBest f thr q claims
      = if 0 < bestEligScore f thr q claims
        then specWinner f q claims (bestEligScore f thr q claims) else none := by
    unfold searchBest
    rw [matcher_loop f thr q claims none 0 hrev]
  by_cases h0 : 0 < bestEligScore f thr q claims
  · have hMmem : bestEligScore f thr q claims ∈ eligScores f thr q claims := by
      rw [hBE]
      apply foldr_max_mem
      · intro x hx
        exact Nat.le_trans hthr (mem_eligScores_thr_le f thr q claims x hx)
      · rw [← hBE]
        exact h0
    obtain ⟨c0, hc0mem, hc0a, hc0b, hc0c⟩ :=
      (mem_eligScores_iff f thr q claims _).mp hMmem
    have hfindsome : (winnerOf f q claims (bestEligScore f thr q claims)).isSome := by
      unfold winnerOf
      rw [List.find?_isSome]
      exact ⟨c0, hc0mem, by simp [hc0a, hc0c]⟩
    obtain ⟨c, hc⟩ := Option.isSome_iff_exists.mp hfindsome
    have hpredc : claimText c ≠ "" ∧ f q (claimText c) = bestEligScore f thr q claims := by
      have hp := List.find?_some hc
      simpa using hp
    have hcmem : c ∈ claims := List.mem_of_find?_eq_some hc
    obtain ⟨r, rs, hr⟩ : ∃ r rs, c.claimReview = r :: rs := by
      cases hcr : c.claimReview with
      | nil => exact absurd hcr (hrev c hcmem hpredc.1)
      | cons r rs => exact ⟨r, rs, rfl⟩
    have hspec : specWinner f q claims (bestEligScore f thr q claims)
        = some (toMatch r (bestEligScore f thr q claims)) := by
      unfold specWinner
      rw [hc]
      show (match c.claimReview with
        | r2 :: _ => some (toMatch r2 (bestEligScore f thr q claims))
        | [] => none) = some (toMatch r (bestEligScore f thr q claims))
      rw [hr]
    have hsome : searchBest f thr q claims
        = some (toMatch r (bestEligScore f thr q claims)) := by
      rw [hsb, if_pos h0, hspec]
    have hne : eligScores f thr q claims ≠ [] := by
      intro hnil
      rw [hBE, hnil] at h0
      simp at h0
    have hthrM : thr ≤ bestEligScore f thr q claims := bestElig_thr f thr q claims hne
    constructor
    · constructor
      · intro hnone
        rw [hsome] at hnone
        exact absurd hnone (by simp)
      · intro hall
        exfalso
        rcases hall c0 hc0mem with h | h
        · exact hc0a h
        · omega
    · intro m hm
      rw [hsome] at hm
      have hmeq : m = toMatch r (bestEligScore f thr q claims) := (Option.some.inj hm).symm
      refine ⟨c, r, rs, hc, hr, hmeq, hpredc.1, ?_, hpredc.2, ?_⟩
      · rw [hpredc.2]
        exact hthrM
      · intro c2 hc2 hx1 hx2
        have hx : f q (claimText c2) ∈ eligScores f thr q claims :=
          (mem_eligScores_iff f thr q claims _).mpr ⟨c2, hc2, hx1, hx2, rfl⟩
        have hle := mem_le_foldr_max _ _ hx
        rw [hpredc.2, hBE]
        exact hle
  · have hM0 : bestEligScore f thr q claims = 0 := Nat.eq_zero_of_not_pos h0
    have hnone : searchBest f thr q claims = none := by
      rw [hsb, if_neg h0]
    constructor
    · rw [hnone]
      constructor
      · intro _ c hc
        by_cases hct : claimText c = ""
        · exact Or.inl hct
        · right
          by_contra hge
          rw [Nat.not_lt] at hge
          have hx : f q (claimText c) ∈ eligScores f thr q claims :=
            (mem_eligScores_iff f thr q claims _).mpr ⟨c, hc, hct, hge, rfl⟩
          have hle := mem_le_foldr_max _ _ hx
          rw [← hBE, hM0] at hle
          omega
      · intro _
        rfl
    · intro m hm
      rw [hnone] at hm
      exact absurd hm (by simp)

/-- C3 witness: candidates scoring 40, 72, 72, 90 at threshold 50 yield the
score-90 candidate's first review in either traversal order, and candidates
scoring 80, 80 yield the first-encountered one; the none-iff clause of the
characterisation instantiated at the first list. -/
theorem search_claim_matcher_spec_witness :
    (searchBest exScore 50 "q" cl90 = none ↔
      ∀ c ∈ cl90, claimText c = "" ∨ exScore "q" (claimText c) < 50) ∧
    searchBest exScore 50 "q" cl90 = some (toMatch (rv "rd") 90) ∧
    searchBest exScore 50 "q" cl90.reverse = some (toMatch (rv "rd") 90) ∧
    searchBest exScore 50 "q" cl80 = some (toMatch (rv "re") 80) := by
  refine ⟨(search_claim_matcher_spec exScore 50 "q" cl90 (by decide) (by decide)).1,
    by decide, by decide, by decide⟩
